import Mathlib

/-!
Verification development for the JWX Studio Platform audio pipeline.

The definitions below are shallow embeddings of the relevant TypeScript
source files:
* `src/app/api/audio-stream/[...path]/route.ts` (range-request streaming),
* `src/app/api/upload/audio/route.ts` (upload / version lifecycle),
* the version activate (PUT) and delete (DELETE) route handlers,
* `src/lib/audioProcessing.ts` (analysis, normalization, waveform).

JavaScript machine numbers are modelled as `Int`/`Nat`/`Rat`
(with `Option Int` where `NaN` can arise); byte buffers as `List Nat`;
the filesystem as an association list from paths to byte lists.
-/

set_option maxRecDepth 100000

namespace JWX

/-! ## String utilities (models of the JS string operations used) -/

/-- Model of decoding a single hexadecimal digit. -/
def hexVal (c : Char) : Option Nat :=
  if '0' ≤ c ∧ c ≤ '9' then some (c.toNat - 48)
  else if 'a' ≤ c ∧ c ≤ 'f' then some (c.toNat - 87)
  else if 'A' ≤ c ∧ c ≤ 'F' then some (c.toNat - 55)
  else none

/-- Model of `decodeURIComponent` restricted to single-byte `%XX` escapes
(sufficient for the ASCII paths handled here); a malformed escape is kept
verbatim (the real function would throw, a case not exercised below). -/
def percentDecode : List Char → List Char
  | [] => []
  | '%' :: a :: b :: rest =>
      match hexVal a, hexVal b with
      | some ha, some hb => Char.ofNat (16 * ha + hb) :: percentDecode rest
      | _, _ => '%' :: percentDecode (a :: b :: rest)
  | c :: rest => c :: percentDecode rest

/-- Split a character list at every occurrence of `sep`
(the model of JS `String.prototype.split` with a one-character separator). -/
def splitOnChar (sep : Char) : List Char → List (List Char)
  | [] => [[]]
  | c :: rest =>
      if c = sep then [] :: splitOnChar sep rest
      else
        match splitOnChar sep rest with
        | [] => [[c]]
        | g :: gs => (c :: g) :: gs

/-- Boolean check that `p` is an initial segment of the second list. -/
def startsWithL : List Char → List Char → Bool
  | [], _ => true
  | _ :: _, [] => false
  | p :: ps, c :: cs => p == c && startsWithL ps cs

/-- Remove the first occurrence of `pat` from a character list:
the model of JS `s.replace(pat, "")` with a non-global pattern. -/
def removeFirst (pat : List Char) : List Char → List Char
  | [] => []
  | c :: cs =>
      if startsWithL pat (c :: cs) then (c :: cs).drop pat.length
      else c :: removeFirst pat cs

/-- Boolean substring check, the model of JS `String.prototype.includes`. -/
def containsSub (pat : List Char) : List Char → Bool
  | [] => decide (pat = [])
  | c :: rest => startsWithL pat (c :: rest) || containsSub pat rest

/-- Take the maximal run of decimal digits from the front of the list,
returning it together with the remainder. -/
def takeDigits : List Char → List Char × List Char
  | [] => ([], [])
  | c :: rest =>
      if c.isDigit then
        let p := takeDigits rest
        (c :: p.1, p.2)
      else ([], c :: rest)

/-- Numeric value of a list of decimal digit characters. -/
def digitsVal (ds : List Char) : Nat :=
  ds.foldl (fun a c => a * 10 + (c.toNat - 48)) 0

/-! ## Streaming route: path resolution
(`src/app/api/audio-stream/[...path]/route.ts`, lines 30-55) -/

/-- The hardcoded storage root of the streaming route (line 10 of the file). -/
def AUDIO_FILES_BASE_DIR : String :=
  "/Users/joshsawyer/Documents/GitHub/JWX-Studio-Platform/uploads"

/-- The URL segment stripped off by the handler (`apiPrefix` in the source). -/
def apiPathStart : String := "/api/audio-stream/"

/-- Split a path on `/` into segments. -/
def splitSlash (cs : List Char) : List (List Char) := splitOnChar '/' cs

/-- Resolve `.` and `..` segments the way Node `path.join` normalizes an
absolute path: `..` pops the previous segment (and is dropped at the root),
`.` and empty segments are dropped. -/
def resolveDots (segs : List (List Char)) : List (List Char) :=
  segs.foldl (fun acc seg =>
    if seg = [] ∨ seg = ['.'] then acc
    else if seg = ['.', '.'] then acc.dropLast
    else acc ++ [seg]) []

/-- Join path segments back with `/`. -/
def joinSegs : List (List Char) → List Char
  | [] => []
  | [s] => s
  | s :: rest => s ++ '/' :: joinSegs rest

/-- Model of Node `path.join(a, b)` for an absolute first argument:
concatenate with a separator and normalize. -/
def pathJoinAbs (a b : String) : String :=
  String.mk ('/' :: joinSegs (resolveDots (splitSlash (a.data ++ '/' :: b.data))))

/-- Embedding of the streaming GET handler's path derivation (lines 32-53):
take `req.nextUrl.pathname`, require the `/api/audio-stream/` prefix,
`decodeURIComponent` the remainder and `path.join` it onto the storage root.
The handler performs no containment check on the result: `none` (a 400) is
returned only when the prefix is missing, and otherwise the joined path is
used directly to read the file. -/
def deriveFilePath (pathname : String) : Option String :=
  if startsWithL apiPathStart.data pathname.data then
    some (pathJoinAbs AUDIO_FILES_BASE_DIR
      (String.mk (percentDecode (pathname.data.drop apiPathStart.data.length))))
  else none

/-! ## Streaming route: range-request handling
(`src/app/api/audio-stream/[...path]/route.ts`, lines 72-129) -/

/-- Model of JS `parseInt(s, 10)` on a character list: skip leading
whitespace, read an optional sign and then the maximal digit run;
`none` models `NaN` (no digits found). -/
def jsParseIntL (cs : List Char) : Option Int :=
  let cs1 := cs.dropWhile (fun c => c == ' ' || c == '\t' || c == '\n' || c == '\r')
  match cs1 with
  | '-' :: r =>
      let ds := (takeDigits r).1
      if ds = [] then none else some (-(digitsVal ds : Int))
  | '+' :: r =>
      let ds := (takeDigits r).1
      if ds = [] then none else some (digitsVal ds : Int)
  | _ =>
      let ds := (takeDigits cs1).1
      if ds = [] then none else some (digitsVal ds : Int)

/-- `parseInt` on a string. -/
def jsParseInt (s : String) : Option Int := jsParseIntL s.data

/-- Decimal rendering of a JS number that may be `NaN` (modelled by `none`),
as template-literal interpolation would produce it. -/
def jsNumToString : Option Int → String
  | none => "NaN"
  | some v => toString v

/-- `NaN`-propagating addition of a constant. -/
def jsAdd (a : Option Int) (k : Int) : Option Int := a.map (fun v => v + k)

/-- `NaN`-propagating subtraction. -/
def jsSub (a b : Option Int) : Option Int :=
  match a, b with
  | some x, some y => some (x - y)
  | _, _ => none

/-- `Buffer.subarray` index conversion: `NaN` behaves as `0`, negative
offsets count from the end, and the result is clamped to `[0, len]`. -/
def relIndex (len : Int) : Option Int → Int
  | none => 0
  | some v => if v < 0 then max (len + v) 0 else min v len

/-- Model of `buf.subarray(b, e)` on a byte list. -/
def subarray (bytes : List Nat) (b e : Option Int) : List Nat :=
  let len : Int := bytes.length
  let b' := relIndex len b
  let e' := relIndex len e
  (bytes.drop b'.toNat).take (e' - b').toNat

/-- Extension (including the dot) of the last `/`-separated segment,
following Node `path.extname`: empty when the segment has no dot or only a
leading dot. -/
def extnameL (cs : List Char) : List Char :=
  let base := (splitSlash cs).getLastD []
  match ((List.range base.length).filter (fun i => base.getD i ' ' == '.')).getLast? with
  | none => []
  | some 0 => []
  | some i => base.drop i

/-- The `Content-Type` switch of the handler (lines 90-108). -/
def contentTypeFor (p : String) : String :=
  let ext := String.mk ((extnameL p.data).map Char.toLower)
  if ext = ".mp3" then "audio/mpeg"
  else if ext = ".wav" then "audio/wav"
  else if ext = ".ogg" then "audio/ogg"
  else if ext = ".flac" then "audio/flac"
  else "application/octet-stream"

/-- The observable parts of the `NextResponse` built by the handler.
`contentLength` and the numbers inside `contentRange` are kept as the JS
numbers they are computed from (`none` = `NaN`); the header serializes them
in decimal. -/
structure StreamResponse where
  status : Nat
  contentRange : Option String
  contentLength : Option Int
  contentType : String
  body : List Nat
  deriving Repr, DecidableEq

/-- Embedding of the byte-serving part of the streaming GET handler
(lines 72-129), for an existing stored file with contents `fileBytes`.
Mirrors the source: `start` defaults to `0` and `end` to `fileSize - 1`;
when a `Range` header is present, `bytes=` is stripped, the value is split
on `-`, `start` is `parseInt(parts[0])`, `end` is `parseInt(parts[1])`
unless `parts[1]` is falsy (absent or empty), and `partialContent` is set
unconditionally, yielding a 206 with
`Content-Range: bytes {start}-{end}/{fileSize}` and
`Content-Length = end - start + 1`; the body is
`fileBuffer.subarray(start, end + 1)` in every case. -/
def handleGet (fileBytes : List Nat) (rangeHeader : Option String)
    (absolutePath : String) : StreamResponse :=
  let fileSize : Int := fileBytes.length
  match rangeHeader with
  | none =>
      { status := 200
        contentRange := none
        contentLength := some fileSize
        contentType := contentTypeFor absolutePath
        body := subarray fileBytes (some 0) (jsAdd (some (fileSize - 1)) 1) }
  | some r =>
      let parts := splitOnChar '-' (removeFirst "bytes=".data r.data)
      let startN : Option Int := jsParseIntL (parts.headD [])
      let p1 := (parts.drop 1).headD []
      let endN : Option Int := if p1 = [] then some (fileSize - 1) else jsParseIntL p1
      { status := 206
        contentRange := some ("bytes " ++ jsNumToString startN ++ "-"
          ++ jsNumToString endN ++ "/" ++ toString fileSize)
        contentLength := jsAdd (jsSub endN startN) 1
        contentType := contentTypeFor absolutePath
        body := subarray fileBytes startN (jsAdd endN 1) }

/-! ## Version lifecycle
(upload: `src/app/api/upload/audio/route.ts`, lines 144-190;
activate: the versions PUT handler; delete: the versions DELETE handler) -/

/-- The `VersionType` enum of the Prisma schema. -/
inductive VersionType where
  | STEREO
  | ATMOS
  | REFERENCE
  deriving DecidableEq, Repr

/-- The columns of an `AudioVersion` row that the lifecycle handlers read
or write. -/
structure AudioVersion where
  id : Nat
  trackId : String
  versionType : VersionType
  versionNumber : Nat
  isActive : Bool
  deriving DecidableEq, Repr

/-- Database state: the `AudioVersion` table plus a fresh-id source
(modelling `cuid()` generation). -/
structure DB where
  rows : List AudioVersion
  nextId : Nat
  deriving Repr

/-- The `where { trackId, versionType }` filter used by the handlers. -/
def keyP (tid : String) (vt : VersionType) (v : AudioVersion) : Bool :=
  decide (v.trackId = tid) && decide (v.versionType = vt)

/-- The same filter restricted to active rows. -/
def activeP (tid : String) (vt : VersionType) (v : AudioVersion) : Bool :=
  keyP tid vt v && v.isActive

/-- Number of rows of a (trackId, versionType) key. -/
def keyCount (rows : List AudioVersion) (tid : String) (vt : VersionType) : Nat :=
  rows.countP (keyP tid vt)

/-- Number of active rows of a (trackId, versionType) key. -/
def activeCount (rows : List AudioVersion) (tid : String) (vt : VersionType) : Nat :=
  rows.countP (activeP tid vt)

/-- The spec's exactly-one-active invariant: per key at most one active
row, and exactly one whenever the key has any row at all. -/
def activeInvariant (rows : List AudioVersion) : Prop :=
  ∀ tid vt, activeCount rows tid vt ≤ 1
    ∧ (0 < keyCount rows tid vt → activeCount rows tid vt = 1)

/-- `updateMany { where: key, data: { isActive: false } }` applied to one
row. -/
def deactivateKey (tid : String) (vt : VersionType) (v : AudioVersion) : AudioVersion :=
  if keyP tid vt v then { v with isActive := false } else v

/-- `update { where: { id }, data: { isActive: true } }` applied to one
row (row ids are unique, so mapping this over the table updates exactly
the targeted row). -/
def setActiveById (i : Nat) (v : AudioVersion) : AudioVersion :=
  if v.id = i then { v with isActive := true } else v

/-- One step of scanning for the row with the greatest versionNumber. -/
def pickLatest (acc : Option AudioVersion) (v : AudioVersion) : Option AudioVersion :=
  match acc with
  | none => some v
  | some a => if a.versionNumber < v.versionNumber then some v else some a

/-- `findFirst { where: key, orderBy: { versionNumber: 'desc' } }`: the
row of the key with the greatest versionNumber (first such row on ties). -/
def findLatestVersion (rows : List AudioVersion) (tid : String) (vt : VersionType) :
    Option AudioVersion :=
  (rows.filter (keyP tid vt)).foldl pickLatest none

/-- Embedding of the version bookkeeping of the upload route
(lines 144-190): read the latest version of the key, compute
`nextVersionNumber = (latest?.versionNumber || 0) + 1`, deactivate every
version of the key, insert the new row as active. -/
def uploadOp (db : DB) (tid : String) (vt : VersionType) : DB :=
  let latestNum : Nat :=
    match findLatestVersion db.rows tid vt with
    | none => 0
    | some v => v.versionNumber
  let nextVersionNumber := latestNum + 1
  { rows := (db.rows.map (deactivateKey tid vt))
      ++ [⟨db.nextId, tid, vt, nextVersionNumber, true⟩]
    nextId := db.nextId + 1 }

/-- Embedding of the activate (PUT) handler: 404 (no state change) when the
version id is unknown or belongs to another track, otherwise deactivate all
versions of the target's key and activate the target. -/
def activateOp (db : DB) (tid : String) (versionId : Nat) : DB :=
  match db.rows.find? (fun v => decide (v.id = versionId)) with
  | none => db
  | some v =>
      if v.trackId ≠ tid then db
      else
        let deactivated := db.rows.map (deactivateKey tid v.versionType)
        { db with rows := deactivated.map (setActiveById versionId) }

/-- Embedding of the delete (DELETE) handler: 404 (no state change) when
the version id is unknown or belongs to another track; 400 (no state
change) when it is the only version of its key; otherwise remove the row
and, when the removed row was active, promote the remaining version of the
key with the greatest versionNumber. -/
def deleteOp (db : DB) (tid : String) (versionId : Nat) : DB :=
  match db.rows.find? (fun v => decide (v.id = versionId)) with
  | none => db
  | some v =>
      if v.trackId ≠ tid then db
      else if keyCount db.rows tid v.versionType = 1 then db
      else
        let remaining := db.rows.filter (fun w => !decide (w.id = versionId))
        if v.isActive then
          match findLatestVersion remaining tid v.versionType with
          | some latest =>
              { db with rows := remaining.map (setActiveById latest.id) }
          | none => { db with rows := remaining }
        else { db with rows := remaining }

/-- A sequential lifecycle operation on the version store. -/
inductive LifecycleOp where
  | upload (tid : String) (vt : VersionType)
  | activate (tid : String) (versionId : Nat)
  | del (tid : String) (versionId : Nat)

/-- Apply one operation. -/
def applyOp (db : DB) : LifecycleOp → DB
  | .upload tid vt => uploadOp db tid vt
  | .activate tid versionId => activateOp db tid versionId
  | .del tid versionId => deleteOp db tid versionId

/-- The empty database. -/
def emptyDB : DB := { rows := [], nextId := 0 }

/-- Run a sequence of operations from the empty state. -/
def runOps (ops : List LifecycleOp) : DB :=
  ops.foldl applyOp emptyDB

/-- Internal well-formedness: ids are fresh and unique. -/
def Inv (db : DB) : Prop :=
  (∀ v ∈ db.rows, v.id < db.nextId)
    ∧ (db.rows.map (fun v => v.id)).Nodup
    ∧ activeInvariant db.rows

/-- The versionNumbers recorded for a key, in row order. -/
def versionNumbersOf (rows : List AudioVersion) (tid : String) (vt : VersionType) :
    List Nat :=
  (rows.filter (keyP tid vt)).map (fun v => v.versionNumber)

/-- Greatest versionNumber of a key (0 when the key has no rows). -/
def maxVersionNumber (rows : List AudioVersion) (tid : String) (vt : VersionType) : Nat :=
  (versionNumbersOf rows tid vt).foldl max 0

/-! ## Filesystem model -/

/-- Association list from absolute paths to byte contents. -/
def FS : Type := List (String × List Nat)

/-- Read a file's bytes. -/
def fsLookup (fs : FS) (p : String) : Option (List Nat) :=
  match fs.find? (fun e => decide (e.1 = p)) with
  | some e => some e.2
  | none => none

/-- `fs.writeFile(p, b)`: create or replace. -/
def fsWrite (fs : FS) (p : String) (b : List Nat) : FS :=
  (p, b) :: fs.filter (fun e => !decide (e.1 = p))

/-- `fs.rename(src, dst)`: move the contents (no-op when `src` is absent,
a case never reached in the modelled flows). -/
def fsRename (fs : FS) (src dst : String) : FS :=
  match fsLookup fs src with
  | none => fs
  | some b => fsWrite (fs.filter (fun e => !decide (e.1 = src))) dst b

/-! ## Upload route file flow for ATMOS
(`src/app/api/upload/audio/route.ts`, lines 104-141 and 166-190) -/

/-- The `isNormalized` / `lufsLevel` pair stored in the created
`AudioVersion` row (lines 186-187): `versionType === 'ATMOS' ? false : true`
and `versionType === 'ATMOS' ? null : normResult.analysis.originalLufs`. -/
def uploadRecordFields (versionType : String) (normLufs : Option ℚ) :
    Bool × Option ℚ :=
  (if versionType = "ATMOS" then false else true,
   if versionType = "ATMOS" then none else normLufs)

/-- Result of the ATMOS branch of the upload route. -/
structure AtmosUploadResult where
  fs : FS
  storedPath : String
  isNormalized : Bool
  lufsLevel : Option ℚ
  fileSize : Nat

/-- Embedding of the upload route's file handling when
`versionType = 'ATMOS'`: write the uploaded buffer to `tempPath`
(line 107), rename it to `filePath` with no normalization (line 131), and
after the version bookkeeping rename `filePath` to the versioned name
(line 175). -/
def atmosUploadFlow (fs0 : FS) (buffer : List Nat)
    (tempPath filePath versionedFilePath : String) : AtmosUploadResult :=
  let fs1 := fsWrite fs0 tempPath buffer
  let fs2 := fsRename fs1 tempPath filePath
  let fs3 := fsRename fs2 filePath versionedFilePath
  { fs := fs3
    storedPath := versionedFilePath
    isNormalized := (uploadRecordFields "ATMOS" none).1
    lufsLevel := (uploadRecordFields "ATMOS" none).2
    fileSize := buffer.length }

/-! ## Normalization engine (`src/lib/audioProcessing.ts`) -/

/-- A loudness / true-peak target of `NORMALIZATION_TARGETS` (lines 31-52). -/
structure NormTarget where
  targetLufs : ℚ
  maxTruePeak : ℚ
  preserveDynamics : Bool
  deriving DecidableEq, Repr

/-- The `NORMALIZATION_TARGETS` table of `audioProcessing.ts`: STEREO_MASTER
−16 / −1, ATMOS −18 / −1, BINAURAL −16 / −1, REFERENCE 0 / 0. -/
def NORMALIZATION_TARGETS (k : String) : Option NormTarget :=
  if k = "STEREO_MASTER" then some ⟨-16, -1, true⟩
  else if k = "ATMOS" then some ⟨-18, -1, true⟩
  else if k = "BINAURAL" then some ⟨-16, -1, true⟩
  else if k = "REFERENCE" then some ⟨0, 0, false⟩
  else none

/-- The argument list built for the normalization ffmpeg invocation
(lines 204-210): note that the output destination — the final argument —
is `outputPath` itself, not a temporary path. -/
def ffmpegArgs (inputPath outputPath : String) (t : NormTarget) : List String :=
  ["-i", inputPath,
   "-af", "loudnorm=I=" ++ toString t.targetLufs ++ ":TP=" ++ toString t.maxTruePeak
     ++ ":LRA=11:print_format=json",
   "-ar", "48000",
   "-c:a", "pcm_s24le",
   outputPath]

/-- Outcome of the external ffmpeg process: on success it has written its
full output to its destination argument; on abnormal exit it may have left
partial output there (it writes incrementally to the destination). -/
inductive FfmpegOutcome where
  | ok (output : List Nat)
  | fail (leftover : Option (List Nat))

/-- Effect of `runFFmpeg` on the destination path: success writes the full
output, failure leaves whatever partial bytes the process emitted. -/
def runFFmpegModel (fs : FS) (dest : String) (outcome : FfmpegOutcome) : FS × Bool :=
  match outcome with
  | .ok b => (fsWrite fs dest b, true)
  | .fail none => (fs, false)
  | .fail (some b) => (fsWrite fs dest b, false)

/-- Embedding of `normalizeAudioFile(inputPath, outputPath, versionType)`
(lines 180-240): analyze the input (any thrown error is caught and returned
as `success: false` with no cleanup); for REFERENCE copy the file; otherwise
run ffmpeg with `outputPath` as its destination argument and report
`success: false` on failure — again with no removal of whatever was written
to `outputPath`. -/
def normalizeAudioFileModel (fs : FS) (inputPath outputPath : String)
    (versionType : String) (analysisOk : Bool) (outcome : FfmpegOutcome) :
    FS × Bool :=
  if analysisOk = false then (fs, false)
  else if versionType = "REFERENCE" then
    match fsLookup fs inputPath with
    | some b => (fsWrite fs outputPath b, true)
    | none => (fs, false)
  else runFFmpegModel fs outputPath outcome

/-! ## Analysis engine (`src/lib/audioProcessing.ts`, lines 57-175) -/

/-- Attempt to match the regex `-?\d+\.?\d*` followed by the literal
`suffix` at the start of `cs`, returning the numeric value of the matched
group (`parseFloat` of it).  Greedy digit runs; when `allowSign` is false
the pattern has no leading `-?` (the `Loudness range` pattern). -/
def tryMatchAt (allowSign : Bool) (suffix : List Char) (cs : List Char) : Option ℚ :=
  let signAndRest : Bool × List Char :=
    match cs with
    | '-' :: rest => if allowSign then (true, rest) else (false, cs)
    | _ => (false, cs)
  let ds := takeDigits signAndRest.2
  if ds.1 = [] then none
  else
    let frac : List Char × List Char :=
      match ds.2 with
      | '.' :: rest => takeDigits rest
      | _ => ([], ds.2)
    if startsWithL suffix frac.2 then
      let q : ℚ := (digitsVal ds.1 : ℚ) + (digitsVal frac.1 : ℚ) / ((10 : ℚ) ^ frac.1.length)
      some (if signAndRest.1 then -q else q)
    else none

/-- Leftmost match of the pattern across the line (the model of
`line.match(/(-?\d+\.?\d*) SUFFIX/)` followed by `parseFloat(match[1])`). -/
def scanMatch (allowSign : Bool) (suffix : List Char) : List Char → Option ℚ
  | [] => none
  | c :: rest =>
      match tryMatchAt allowSign suffix (c :: rest) with
      | some q => some q
      | none => scanMatch allowSign suffix rest

/-- The four accumulated measurements of `analyzeLoudness`, all initialized
to `0` (lines 140-143). -/
structure LoudnessAcc where
  integratedLoudness : ℚ
  truePeak : ℚ
  loudnessRange : ℚ
  maxMomentary : ℚ
  deriving DecidableEq, Repr

/-- One iteration of the line loop of `analyzeLoudness` (lines 145-162):
each labelled line whose regex matches overwrites the corresponding
accumulator; lines without the label (or without a match) leave it as is. -/
def loudnessLineStep (acc : LoudnessAcc) (line : List Char) : LoudnessAcc :=
  let a1 :=
    if containsSub "Integrated loudness:".data line then
      match scanMatch true " LUFS".data line with
      | some q => { acc with integratedLoudness := q }
      | none => acc
    else acc
  let a2 :=
    if containsSub "True peak:".data line then
      match scanMatch true " dBTP".data line with
      | some q => { a1 with truePeak := q }
      | none => a1
    else a1
  let a3 :=
    if containsSub "Loudness range:".data line then
      match scanMatch false " LU".data line with
      | some q => { a2 with loudnessRange := q }
      | none => a2
    else a2
  if containsSub "Momentary max:".data line then
    match scanMatch true " LUFS".data line with
    | some q => { a3 with maxMomentary := q }
    | none => a3
  else a3

/-- The loudness measurements returned by `analyzeLoudness`. -/
structure LoudnessData where
  originalLufs : ℚ
  peakLevel : ℚ
  truePeak : ℚ
  dynamicRange : ℚ
  deriving DecidableEq, Repr

/-- Embedding of `analyzeLoudness` (lines 115-175).  The close handler
never inspects `exitCode` (the parameter is unused, mirroring the source),
never rejects, and fields whose labels are absent keep their initial value
of `0`. -/
def analyzeLoudnessModel (_exitCode : Int) (stderrText : String) : LoudnessData :=
  let lines := splitOnChar (Char.ofNat 10) stderrText.data
  let a := lines.foldl loudnessLineStep ⟨0, 0, 0, 0⟩
  { originalLufs := a.integratedLoudness
    peakLevel := a.maxMomentary
    truePeak := a.truePeak
    dynamicRange := a.loudnessRange }

/-- An entry of `probeData.streams` (the fields read on lines 87-102). -/
structure ProbeStream where
  codecType : String
  sampleRate : Nat
  channels : Nat
  codecName : String
  bitsPerSample : Option Nat
  sampleFmt : Option String
  deriving DecidableEq, Repr

/-- Parsed ffprobe JSON output (`none` for `probe` below models a
`JSON.parse` failure). -/
structure ProbeData where
  streams : List ProbeStream
  duration : ℚ
  deriving DecidableEq, Repr

/-- The technical analysis record assembled on lines 97-104. -/
structure AudioAnalysisR where
  duration : ℚ
  sampleRate : Nat
  bitDepth : Nat
  channels : Nat
  codec : String
  originalLufs : ℚ
  peakLevel : ℚ
  truePeak : ℚ
  dynamicRange : ℚ
  deriving DecidableEq, Repr

/-- `audioStream.bits_per_sample || (audioStream.sample_fmt?.includes('16')
? 16 : 24)` — `0` and `undefined` are both falsy. -/
def bitDepthOf (st : ProbeStream) : Nat :=
  let fallback :=
    if (match st.sampleFmt with
        | some f => containsSub "16".data f.data
        | none => false) then 16 else 24
  match st.bitsPerSample with
  | some n => if n = 0 then fallback else n
  | none => fallback

/-- Embedding of `analyzeAudioFile` (lines 57-110): reject when ffprobe
exits non-zero, when its output fails to parse, or when no stream has
`codec_type = 'audio'`; otherwise resolve with the stream metadata combined
with the (never-failing) loudness measurements. -/
def analyzeAudioFileModel (ffprobeExitCode : Int) (probe : Option ProbeData)
    (loudExitCode : Int) (loudStderrText : String) : Except String AudioAnalysisR :=
  if ffprobeExitCode ≠ 0 then Except.error "ffprobe failed"
  else
    match probe with
    | none => Except.error "Failed to parse ffprobe output"
    | some pd =>
        match pd.streams.find? (fun s => decide (s.codecType = "audio")) with
        | none => Except.error "No audio stream found"
        | some st =>
            let l := analyzeLoudnessModel loudExitCode loudStderrText
            Except.ok
              { duration := pd.duration
                sampleRate := st.sampleRate
                bitDepth := bitDepthOf st
                channels := st.channels
                codec := st.codecName
                originalLufs := l.originalLufs
                peakLevel := l.peakLevel
                truePeak := l.truePeak
                dynamicRange := l.dynamicRange }

/-- The labels whose lines `analyzeLoudness` scans for. -/
def loudnessLabels : List (List Char) :=
  ["Integrated loudness:".data, "True peak:".data,
   "Loudness range:".data, "Momentary max:".data]

/-- A concrete parsed ffprobe output with one audio stream, used to
exercise the analysis model. -/
def probeC7 : ProbeData :=
  { streams := [⟨"audio", 48000, 2, "pcm_s24le", some 24, some "s32"⟩]
    duration := 1 }

/-! ## Upload route versionType validation
(`src/app/api/upload/audio/route.ts`, lines 54-60) -/

/-- The allow-list of the `Validate version type` check:
`['STEREO', 'ATMOS', 'REFERENCE'].includes(versionType)`. -/
def validVersionTypes : List String := ["STEREO", "ATMOS", "REFERENCE"]

/-- Whether an upload request's `versionType` passes the check; a `false`
here means the route returns 400 `Invalid version type`. -/
def versionTypeCheckPasses (versionType : String) : Bool :=
  validVersionTypes.contains versionType

/-! ## Waveform downsampler (`src/lib/audioProcessing.ts`, lines 268-292) -/

/-- `slice.reduce((sum, sample) => sum + sample * sample, 0)`. -/
def sumSquares (l : List ℚ) : ℚ := l.foldl (fun sum s => sum + s * s) 0

/-- Embedding of the downsampling loop of `generateWaveformData`
(lines 278-290) over the decoded sample list: `samplesPerPixel =
Math.floor(samples.length / width)`; the `i`-th of the `width` outputs is
`Math.sqrt(sumSquares(slice) / slice.length)` for the slice
`samples.slice(i*spp, i*spp + spp)`.  Real-number model of the JS float
arithmetic in which `none` is `NaN`: an empty slice (which happens for
every slot as soon as `samples.length < width`, making `samplesPerPixel`
zero) divides `0 / 0`, which is `NaN` in JS and stays `NaN` through
`Math.sqrt`; a non-empty slice divides by a non-zero length and yields an
ordinary non-negative float. -/
noncomputable def generateWaveformData (samples : List ℚ) (width : Nat) :
    List (Option ℝ) :=
  let samplesPerPixel := samples.length / width
  (List.range width).map (fun i =>
    let slice := (samples.drop (i * samplesPerPixel)).take samplesPerPixel
    if slice.length = 0 then none
    else some (Real.sqrt ((sumSquares slice / slice.length : ℚ) : ℝ)))

/-- Following the spec's wording: the `i`-th contiguous bucket of
`⌊n / W⌋` samples (the trailing remainder is dropped). -/
def specBucket (samples : List ℚ) (width i : Nat) : List ℚ :=
  (samples.drop (i * (samples.length / width))).take (samples.length / width)

/-- Following the spec's wording: the root-mean-square amplitude of a
bucket. -/
noncomputable def specRMS (l : List ℚ) : ℝ :=
  Real.sqrt ((((l.map (fun s => s * s)).sum / l.length : ℚ)) : ℝ)

end JWX

namespace JWX

/-! ## Theorems -/

/-! ### Counting helpers -/

lemma countP_congrB {α : Type} {l : List α} {p q : α → Bool}
    (h : ∀ a ∈ l, p a = q a) : l.countP p = l.countP q :=
  List.countP_congr (fun a ha => by rw [h a ha])

lemma countP_split {α : Type} (l : List α) (p q : α → Bool) :
    l.countP p = l.countP (fun a => p a && q a) + l.countP (fun a => p a && !q a) := by
  induction l with
  | nil => rfl
  | cons a t ih =>
      rw [List.countP_cons, List.countP_cons, List.countP_cons, ih]
      cases hq : q a <;> cases hp : p a <;> simp [hp, hq] <;> omega

lemma countP_and_id (l : List AudioVersion) (hnd : (l.map (fun v => v.id)).Nodup)
    (r : AudioVersion) (hr : r ∈ l) (p : AudioVersion → Bool) :
    l.countP (fun v => p v && decide (v.id = r.id)) = if p r then 1 else 0 := by
  induction l with
  | nil => cases hr
  | cons a t ih =>
      rw [List.map_cons, List.nodup_cons] at hnd
      rcases List.mem_cons.mp hr with h | h
      · subst h
        have ht : t.countP (fun v => p v && decide (v.id = r.id)) = 0 := by
          rw [List.countP_eq_zero]
          intro v hv
          simp only [Bool.and_eq_true, decide_eq_true_eq, not_and]
          intro _ hid
          exact absurd (hid ▸ List.mem_map_of_mem (fun v => v.id) hv) hnd.1
        rw [List.countP_cons, ht]
        simp
      · have ha : ¬ (a.id = r.id) := by
          intro e
          exact hnd.1 (e ▸ List.mem_map_of_mem (fun v => v.id) h)
        rw [List.countP_cons, ih hnd.2 h]
        simp [ha]

lemma mem_id_inj (l : List AudioVersion) (hnd : (l.map (fun v => v.id)).Nodup)
    {v w : AudioVersion} (hv : v ∈ l) (hw : w ∈ l) (hid : v.id = w.id) : v = w :=
  List.inj_on_of_nodup_map hnd hv hw hid

/-! ### Pointwise facts about the row transformers -/

lemma keyP_iff (tid : String) (vt : VersionType) (v : AudioVersion) :
    keyP tid vt v = true ↔ v.trackId = tid ∧ v.versionType = vt := by
  simp [keyP]

lemma keyP_deactivateKey (tid : String) (vt : VersionType) (tid' : String)
    (vt' : VersionType) (v : AudioVersion) :
    keyP tid' vt' (deactivateKey tid vt v) = keyP tid' vt' v := by
  unfold deactivateKey
  split <;> rfl

lemma keyP_setActiveById (i : Nat) (tid' : String) (vt' : VersionType)
    (v : AudioVersion) :
    keyP tid' vt' (setActiveById i v) = keyP tid' vt' v := by
  unfold setActiveById
  split <;> rfl

lemma id_deactivateKey (tid : String) (vt : VersionType) (v : AudioVersion) :
    (deactivateKey tid vt v).id = v.id := by
  unfold deactivateKey
  split <;> rfl

lemma id_setActiveById (i : Nat) (v : AudioVersion) :
    (setActiveById i v).id = v.id := by
  unfold setActiveById
  split <;> rfl

lemma num_deactivateKey (tid : String) (vt : VersionType) (v : AudioVersion) :
    (deactivateKey tid vt v).versionNumber = v.versionNumber := by
  unfold deactivateKey
  split <;> rfl

lemma isActive_deactivateKey (tid : String) (vt : VersionType) (v : AudioVersion) :
    (deactivateKey tid vt v).isActive
      = if keyP tid vt v then false else v.isActive := by
  unfold deactivateKey
  split <;> simp_all

lemma isActive_setActiveById (i : Nat) (v : AudioVersion) :
    (setActiveById i v).isActive = if v.id = i then true else v.isActive := by
  unfold setActiveById
  split <;> simp_all

lemma activeP_deactivateKey_self (tid : String) (vt : VersionType) (v : AudioVersion) :
    activeP tid vt (deactivateKey tid vt v) = false := by
  unfold activeP
  rw [keyP_deactivateKey, isActive_deactivateKey]
  cases h : keyP tid vt v <;> simp [h]

lemma activeP_deactivateKey_ne (tid : String) (vt : VersionType) (tid' : String)
    (vt' : VersionType) (v : AudioVersion) (h : ¬ (tid' = tid ∧ vt' = vt)) :
    activeP tid' vt' (deactivateKey tid vt v) = activeP tid' vt' v := by
  unfold activeP
  rw [keyP_deactivateKey, isActive_deactivateKey]
  cases hk : keyP tid vt v
  · simp
  · cases hk' : keyP tid' vt' v
    · simp [hk']
    · exfalso
      obtain ⟨h1, h2⟩ := (keyP_iff tid vt v).mp hk
      obtain ⟨h1', h2'⟩ := (keyP_iff tid' vt' v).mp hk'
      exact h ⟨h1' ▸ h1 ▸ rfl, h2' ▸ h2 ▸ rfl⟩

lemma startsWithL_append_self (p r : List Char) : startsWithL p (p ++ r) = true := by
  induction p with
  | nil => rfl
  | cons a as ih => simp [startsWithL, ih]

lemma removeFirst_append_self (p r : List Char) (hp : p ≠ []) :
    removeFirst p (p ++ r) = r := by
  cases p with
  | nil => exact absurd rfl hp
  | cons a as =>
      have h1 : startsWithL (a :: as) ((a :: as) ++ r) = true := startsWithL_append_self _ _
      rw [List.cons_append] at h1 ⊢
      simp only [removeFirst, h1, if_true, List.length_cons, List.drop_succ_cons]
      exact List.drop_left as r

lemma splitOnChar_of_not_mem (sep : Char) (l : List Char) (h : sep ∉ l) :
    splitOnChar sep l = [l] := by
  induction l with
  | nil => rfl
  | cons c cs ih =>
      have hc : ¬ c = sep := fun e => h (e ▸ List.mem_cons_self c cs)
      have hcs : sep ∉ cs := fun m => h (List.mem_cons_of_mem _ m)
      simp [splitOnChar, hc, ih hcs]

lemma splitOnChar_append (sep : Char) (a b : List Char) (h : sep ∉ a) :
    splitOnChar sep (a ++ sep :: b) = a :: splitOnChar sep b := by
  induction a with
  | nil => simp [splitOnChar]
  | cons c cs ih =>
      have hc : ¬ c = sep := fun e => h (e ▸ List.mem_cons_self c cs)
      have hcs : sep ∉ cs := fun m => h (List.mem_cons_of_mem _ m)
      rw [List.cons_append]
      simp only [splitOnChar, hc, if_false, ih hcs]

/-- The header value `bytes={sStr}-{eStr}` decomposes into the two parsed
parts inside `handleGet`. -/
lemma handleGet_two_parts (fileBytes : List Nat) (p sStr eStr : String) (s e : Int)
    (hs : jsParseInt sStr = some s) (he : jsParseInt eStr = some e)
    (hsd : '-' ∉ sStr.data) (hed : '-' ∉ eStr.data) (heNE : eStr.data ≠ []) :
    handleGet fileBytes (some ("bytes=" ++ sStr ++ "-" ++ eStr)) p =
      { status := 206
        contentRange := some ("bytes " ++ toString s ++ "-" ++ toString e
          ++ "/" ++ toString (fileBytes.length : Int))
        contentLength := some (e - s + 1)
        contentType := contentTypeFor p
        body := subarray fileBytes (some s) (some (e + 1)) } := by
  have hdata : ("bytes=" ++ sStr ++ "-" ++ eStr).data
      = "bytes=".data ++ (sStr.data ++ '-' :: eStr.data) := by
    simp only [String.data_append, List.append_assoc]
    rfl
  have key : splitOnChar '-'
        (removeFirst "bytes=".data ("bytes=" ++ sStr ++ "-" ++ eStr).data)
      = [sStr.data, eStr.data] := by
    rw [hdata, removeFirst_append_self _ _ (by decide), splitOnChar_append _ _ _ hsd,
      splitOnChar_of_not_mem _ _ hed]
  rw [jsParseInt] at hs he
  simp only [handleGet, key, List.headD_cons, List.drop_succ_cons, List.drop_zero,
    hs, if_neg heNE, he, jsNumToString, jsSub, jsAdd, Option.map_some']

/-- The header value `bytes={sStr}-` (end omitted) defaults the end of the
range to `fileSize - 1` inside `handleGet`. -/
lemma handleGet_open_end (fileBytes : List Nat) (p sStr : String) (s : Int)
    (hs : jsParseInt sStr = some s) (hsd : '-' ∉ sStr.data) :
    handleGet fileBytes (some ("bytes=" ++ sStr ++ "-")) p =
      { status := 206
        contentRange := some ("bytes " ++ toString s ++ "-"
          ++ toString ((fileBytes.length : Int) - 1)
          ++ "/" ++ toString (fileBytes.length : Int))
        contentLength := some ((fileBytes.length : Int) - 1 - s + 1)
        contentType := contentTypeFor p
        body := subarray fileBytes (some s)
          (some ((fileBytes.length : Int) - 1 + 1)) } := by
  have hdata : ("bytes=" ++ sStr ++ "-").data
      = "bytes=".data ++ (sStr.data ++ '-' :: ([] : List Char)) := by
    simp only [String.data_append]
    rfl
  have key : splitOnChar '-'
        (removeFirst "bytes=".data ("bytes=" ++ sStr ++ "-").data)
      = [sStr.data, ([] : List Char)] := by
    rw [hdata, removeFirst_append_self _ _ (by decide), splitOnChar_append _ _ _ hsd]
    rfl
  rw [jsParseInt] at hs
  simp only [handleGet, key, List.headD_cons, List.drop_succ_cons, List.drop_zero,
    hs, reduceIte, jsNumToString, jsSub, jsAdd, Option.map_some']

/-- `subarray` with in-range numeric bounds is drop-then-take. -/
lemma subarray_some (bytes : List Nat) (s e : Int) (h0 : 0 ≤ s)
    (hsl : s ≤ (bytes.length : Int)) (he0 : 0 ≤ e) :
    subarray bytes (some s) (some e)
      = (bytes.drop s.toNat).take (min e (bytes.length : Int) - s).toNat := by
  simp only [subarray, relIndex, if_neg (not_lt.mpr h0), if_neg (not_lt.mpr he0),
    min_eq_left hsl]

lemma setActiveById_eq_of_ne (i : Nat) (u : AudioVersion) (h : u.id ≠ i) :
    setActiveById i u = u := by
  unfold setActiveById
  rw [if_neg h]

lemma activeP_setActiveById_hit (i : Nat) (tid' : String) (vt' : VersionType)
    (u : AudioVersion) (h : u.id = i) :
    activeP tid' vt' (setActiveById i u) = keyP tid' vt' u := by
  unfold setActiveById activeP
  rw [if_pos h]
  show (keyP tid' vt' u && true) = keyP tid' vt' u
  rw [Bool.and_true]

lemma keyP_new_row (tid' : String) (vt' : VersionType) (i N : Nat) (tid : String)
    (vt : VersionType) (b : Bool) (hk : ¬ (tid' = tid ∧ vt' = vt)) :
    keyP tid' vt' (⟨i, tid, vt, N, b⟩ : AudioVersion) = false := by
  rcases Bool.eq_false_or_eq_true (keyP tid' vt' (⟨i, tid, vt, N, b⟩ : AudioVersion))
    with h | h
  · obtain ⟨h1, h2⟩ := (keyP_iff tid' vt' _).mp h
    exact absurd ⟨h1.symm, h2.symm⟩ hk
  · exact h

lemma uploadOp_rows (db : DB) (tid : String) (vt : VersionType) :
    (uploadOp db tid vt).rows
      = (db.rows.map (deactivateKey tid vt))
        ++ [⟨db.nextId, tid, vt,
              (match findLatestVersion db.rows tid vt with
               | none => 0
               | some v => v.versionNumber) + 1, true⟩]
    ∧ (uploadOp db tid vt).nextId = db.nextId + 1 :=
  ⟨rfl, rfl⟩

lemma activeInvariant_upload_shape (rows : List AudioVersion) (tid : String)
    (vt : VersionType) (i N : Nat) (hact : activeInvariant rows) :
    activeInvariant ((rows.map (deactivateKey tid vt)) ++ [⟨i, tid, vt, N, true⟩]) := by
  intro tid' vt'
  unfold activeCount keyCount
  rw [List.countP_append, List.countP_append]
  by_cases hk : tid' = tid ∧ vt' = vt
  · obtain ⟨rfl, rfl⟩ := hk
    have hA : (rows.map (deactivateKey tid' vt')).countP (activeP tid' vt') = 0 := by
      rw [List.countP_map, List.countP_eq_zero]
      intro a _
      show ¬ activeP tid' vt' (deactivateKey tid' vt' a) = true
      rw [activeP_deactivateKey_self]
      exact Bool.false_ne_true
    have hNew : ([(⟨i, tid', vt', N, true⟩ : AudioVersion)]).countP (activeP tid' vt')
        = 1 := by
      simp [List.countP_cons, activeP, keyP]
    rw [hA, hNew]
    exact ⟨le_refl 1, fun _ => rfl⟩
  · have hA : (rows.map (deactivateKey tid vt)).countP (activeP tid' vt')
        = rows.countP (activeP tid' vt') := by
      rw [List.countP_map]
      exact countP_congrB (fun a _ => activeP_deactivateKey_ne tid vt tid' vt' a hk)
    have hK : (rows.map (deactivateKey tid vt)).countP (keyP tid' vt')
        = rows.countP (keyP tid' vt') := by
      rw [List.countP_map]
      exact countP_congrB (fun a _ => keyP_deactivateKey tid vt tid' vt' a)
    have hkp := keyP_new_row tid' vt' i N tid vt true hk
    have hNewA : ([(⟨i, tid, vt, N, true⟩ : AudioVersion)]).countP (activeP tid' vt')
        = 0 := by
      simp [List.countP_cons, activeP, hkp]
    have hNewK : ([(⟨i, tid, vt, N, true⟩ : AudioVersion)]).countP (keyP tid' vt')
        = 0 := by
      simp [List.countP_cons, hkp]
    rw [hA, hK, hNewA, hNewK, Nat.add_zero, Nat.add_zero]
    exact hact tid' vt'

lemma inv_uploadOp (db : DB) (tid : String) (vt : VersionType) (h : Inv db) :
    Inv (uploadOp db tid vt) := by
  obtain ⟨hbound, hnodup, hact⟩ := h
  have hrows := (uploadOp_rows db tid vt).1
  have hnext := (uploadOp_rows db tid vt).2
  refine ⟨?_, ?_, ?_⟩
  · intro v hv
    rw [hrows] at hv
    rw [hnext]
    rcases List.mem_append.mp hv with hv | hv
    · obtain ⟨w, hw, rfl⟩ := List.mem_map.mp hv
      rw [id_deactivateKey]
      exact Nat.lt_succ_of_lt (hbound w hw)
    · rw [List.mem_singleton.mp hv]
      exact Nat.lt_succ_self _
  · rw [hrows, List.map_append]
    have hmap : (db.rows.map (deactivateKey tid vt)).map (fun v => v.id)
        = db.rows.map (fun v => v.id) := by
      rw [List.map_map]
      exact List.map_congr_left (fun a _ => id_deactivateKey tid vt a)
    rw [hmap]
    rw [List.nodup_append]
    refine ⟨hnodup, by simp, ?_⟩
    intro x hx hx'
    obtain ⟨w, hw, rfl⟩ := List.mem_map.mp hx
    simp only [List.map_cons, List.map_nil, List.mem_singleton] at hx'
    exact absurd (hx' ▸ hbound w hw) (lt_irrefl _)
  · rw [hrows]
    exact activeInvariant_upload_shape db.rows tid vt db.nextId _ hact

lemma activeInvariant_activate_shape (rows : List AudioVersion)
    (hnodup : (rows.map (fun v => v.id)).Nodup)
    (hact : activeInvariant rows)
    (v : AudioVersion) (hvmem : v ∈ rows) (i : Nat) (hvid : v.id = i)
    (tid : String) (hvtid : v.trackId = tid) :
    activeInvariant
      ((rows.map (deactivateKey tid v.versionType)).map (setActiveById i)) := by
  intro tid' vt'
  unfold activeCount keyCount
  rw [List.countP_map, List.countP_map, List.countP_map, List.countP_map]
  have hKpt : ∀ w ∈ rows,
      keyP tid' vt' (setActiveById i (deactivateKey tid v.versionType w))
        = keyP tid' vt' w := by
    intro w _
    rw [keyP_setActiveById, keyP_deactivateKey]
  by_cases hk : tid' = tid ∧ vt' = v.versionType
  · obtain ⟨rfl, rfl⟩ := hk
    have hApt : ∀ w ∈ rows,
        activeP tid' v.versionType (setActiveById i (deactivateKey tid' v.versionType w))
          = (keyP tid' v.versionType w && decide (w.id = v.id)) := by
      intro w hw
      by_cases hwid : w.id = i
      · have hwv : w = v := mem_id_inj rows hnodup hw hvmem (by rw [hwid, hvid])
        subst hwv
        rw [activeP_setActiveById_hit _ _ _ _ (by rw [id_deactivateKey]; exact hwid),
          keyP_deactivateKey]
        simp [keyP, hvtid]
      · rw [setActiveById_eq_of_ne _ _ (by rw [id_deactivateKey]; exact hwid),
          activeP_deactivateKey_self]
        have : decide (w.id = v.id) = false := by
          simp only [decide_eq_false_iff_not]
          rw [hvid]
          exact hwid
        rw [this, Bool.and_false]
    simp only [Function.comp_def]
    rw [countP_congrB hApt, countP_congrB hKpt,
      countP_and_id rows hnodup v hvmem (keyP tid' v.versionType)]
    have hkv : keyP tid' v.versionType v = true := by
      rw [keyP_iff]
      exact ⟨hvtid, rfl⟩
    rw [if_pos hkv]
    exact ⟨le_refl 1, fun _ => rfl⟩
  · have hApt : ∀ w ∈ rows,
        activeP tid' vt' (setActiveById i (deactivateKey tid v.versionType w))
          = activeP tid' vt' w := by
      intro w hw
      by_cases hwid : w.id = i
      · have hwv : w = v := mem_id_inj rows hnodup hw hvmem (by rw [hwid, hvid])
        subst hwv
        rw [activeP_setActiveById_hit _ _ _ _ (by rw [id_deactivateKey]; exact hwid),
          keyP_deactivateKey]
        have hkf : keyP tid' vt' w = false := by
          cases hkw : keyP tid' vt' w
          · rfl
          · obtain ⟨h1, h2⟩ := (keyP_iff tid' vt' w).mp hkw
            exact absurd ⟨h1 ▸ hvtid ▸ rfl, h2 ▸ rfl⟩ hk
        rw [hkf]
        unfold activeP
        rw [hkf, Bool.false_and]
      · rw [setActiveById_eq_of_ne _ _ (by rw [id_deactivateKey]; exact hwid),
          activeP_deactivateKey_ne _ _ _ _ _ hk]
    simp only [Function.comp_def]
    rw [countP_congrB hApt, countP_congrB hKpt]
    exact hact tid' vt'

lemma activateOp_not_found (db : DB) (tid : String) (versionId : Nat)
    (h : db.rows.find? (fun w => decide (w.id = versionId)) = none) :
    activateOp db tid versionId = db := by
  unfold activateOp
  rw [h]

lemma activateOp_found (db : DB) (tid : String) (versionId : Nat) (v : AudioVersion)
    (h : db.rows.find? (fun w => decide (w.id = versionId)) = some v) :
    activateOp db tid versionId
      = if v.trackId ≠ tid then db
        else { db with
          rows := (db.rows.map (deactivateKey tid v.versionType)).map
            (setActiveById versionId) } := by
  unfold activateOp
  rw [h]

lemma inv_activateOp (db : DB) (tid : String) (versionId : Nat) (h : Inv db) :
    Inv (activateOp db tid versionId) := by
  obtain ⟨hbound, hnodup, hact⟩ := h
  cases hfind : db.rows.find? (fun v => decide (v.id = versionId)) with
  | none => rw [activateOp_not_found db tid versionId hfind]; exact ⟨hbound, hnodup, hact⟩
  | some v =>
      have hvmem : v ∈ db.rows := List.mem_of_find?_eq_some hfind
      have hvid : v.id = versionId := by
        have := List.find?_some hfind
        simpa using this
      rw [activateOp_found db tid versionId v hfind]
      by_cases htr : v.trackId ≠ tid
      · rw [if_pos htr]
        exact ⟨hbound, hnodup, hact⟩
      · rw [if_neg htr]
        push_neg at htr
        have hmapids : ((db.rows.map (deactivateKey tid v.versionType)).map
            (setActiveById versionId)).map (fun w => w.id)
              = db.rows.map (fun w => w.id) := by
          rw [List.map_map, List.map_map]
          exact List.map_congr_left (fun a _ => by
            show ((setActiveById versionId (deactivateKey tid v.versionType a)).id) = a.id
            rw [id_setActiveById, id_deactivateKey])
        refine ⟨?_, ?_, ?_⟩
        · intro w hw
          rcases List.mem_map.mp hw with ⟨u, hu, rfl⟩
          rcases List.mem_map.mp hu with ⟨u', hu', rfl⟩
          show (setActiveById versionId (deactivateKey tid v.versionType u')).id < db.nextId
          rw [id_setActiveById, id_deactivateKey]
          exact hbound u' hu'
        · show (((db.rows.map (deactivateKey tid v.versionType)).map
            (setActiveById versionId)).map fun w => w.id).Nodup
          rw [hmapids]
          exact hnodup
        · exact activeInvariant_activate_shape db.rows hnodup hact v hvmem
            versionId hvid tid htr

lemma deleteOp_not_found (db : DB) (tid : String) (versionId : Nat)
    (h : db.rows.find? (fun w => decide (w.id = versionId)) = none) :
    deleteOp db tid versionId = db := by
  unfold deleteOp
  rw [h]

lemma deleteOp_found (db : DB) (tid : String) (versionId : Nat) (v : AudioVersion)
    (h : db.rows.find? (fun w => decide (w.id = versionId)) = some v) :
    deleteOp db tid versionId
      = if v.trackId ≠ tid then db
        else if keyCount db.rows tid v.versionType = 1 then db
        else if v.isActive then
          match findLatestVersion (db.rows.filter (fun w => !decide (w.id = versionId)))
              tid v.versionType with
          | some latest =>
              { db with
                rows := (db.rows.filter (fun w => !decide (w.id = versionId))).map
                  (setActiveById latest.id) }
          | none =>
              { db with rows := db.rows.filter (fun w => !decide (w.id = versionId)) }
        else { db with rows := db.rows.filter (fun w => !decide (w.id = versionId)) } := by
  unfold deleteOp
  rw [h]

lemma pickLatest_ne_none (acc : Option AudioVersion) (a : AudioVersion) :
    pickLatest acc a ≠ none := by
  cases acc with
  | none => simp [pickLatest]
  | some b =>
      show (if b.versionNumber < a.versionNumber then some a else some b) ≠ none
      split <;> simp

lemma foldl_pickLatest_eq_none (l : List AudioVersion) :
    ∀ acc, l.foldl pickLatest acc = none → acc = none ∧ l = [] := by
  induction l with
  | nil => exact fun acc h => ⟨h, rfl⟩
  | cons a t ih =>
      intro acc h
      obtain ⟨h1, _⟩ := ih (pickLatest acc a) h
      exact absurd h1 (pickLatest_ne_none acc a)

lemma foldl_pickLatest_mem (l : List AudioVersion) :
    ∀ acc x, l.foldl pickLatest acc = some x → x ∈ l ∨ acc = some x := by
  induction l with
  | nil => exact fun acc x h => Or.inr h
  | cons a t ih =>
      intro acc x h
      rcases ih (pickLatest acc a) x h with hx | hx
      · exact Or.inl (List.mem_cons_of_mem a hx)
      · cases acc with
        | none =>
            have : a = x := by simpa [pickLatest] using hx
            exact Or.inl (this ▸ List.mem_cons_self a t)
        | some b =>
            have hx' : (if b.versionNumber < a.versionNumber then some a else some b)
                = some x := hx
            by_cases hlt : b.versionNumber < a.versionNumber
            · rw [if_pos hlt] at hx'
              have : a = x := by simpa using hx'
              exact Or.inl (this ▸ List.mem_cons_self a t)
            · rw [if_neg hlt] at hx'
              exact Or.inr hx'

lemma findLatestVersion_some (rows : List AudioVersion) (tid : String)
    (vt : VersionType) (latest : AudioVersion)
    (h : findLatestVersion rows tid vt = some latest) :
    latest ∈ rows ∧ keyP tid vt latest = true := by
  unfold findLatestVersion at h
  rcases foldl_pickLatest_mem _ _ _ h with hm | hm
  · exact ⟨List.mem_of_mem_filter hm, List.of_mem_filter hm⟩
  · exact absurd hm (by simp)

lemma findLatestVersion_ne_none (rows : List AudioVersion) (tid : String)
    (vt : VersionType) (h : rows.countP (keyP tid vt) ≠ 0) :
    findLatestVersion rows tid vt ≠ none := by
  unfold findLatestVersion
  intro hn
  obtain ⟨_, hl⟩ := foldl_pickLatest_eq_none _ _ hn
  rw [List.countP_eq_length_filter, hl] at h
  exact h rfl

lemma keyP_false_of_ne (tid' : String) (vt' : VersionType) (v : AudioVersion)
    (tid : String) (htr : v.trackId = tid) (vt : VersionType)
    (hvt : v.versionType = vt) (hk : ¬ (tid' = tid ∧ vt' = vt)) :
    keyP tid' vt' v = false := by
  cases hkb : keyP tid' vt' v
  · rfl
  · obtain ⟨h1, h2⟩ := (keyP_iff _ _ _).mp hkb
    exact absurd ⟨h1.symm.trans htr, h2.symm.trans hvt⟩ hk

lemma countP_keyP_map_setActive (l : List AudioVersion) (i : Nat) (tid' : String)
    (vt' : VersionType) :
    (l.map (setActiveById i)).countP (keyP tid' vt') = l.countP (keyP tid' vt') := by
  rw [List.countP_map]
  exact countP_congrB (fun a _ => keyP_setActiveById i tid' vt' a)

lemma countP_activeP_map_setActive_hit (l : List AudioVersion)
    (hnd : (l.map (fun w => w.id)).Nodup) (latest : AudioVersion) (hlm : latest ∈ l)
    (tid' : String) (vt' : VersionType)
    (hallfalse : ∀ w ∈ l, activeP tid' vt' w = false)
    (hklat : keyP tid' vt' latest = true) :
    (l.map (setActiveById latest.id)).countP (activeP tid' vt') = 1 := by
  rw [List.countP_map]
  have hpt : ∀ w ∈ l, activeP tid' vt' (setActiveById latest.id w)
      = (keyP tid' vt' w && decide (w.id = latest.id)) := by
    intro w hw
    by_cases hwid : w.id = latest.id
    · have hwv : w = latest := mem_id_inj l hnd hw hlm hwid
      subst hwv
      rw [activeP_setActiveById_hit _ _ _ _ rfl, hklat]
      simp
    · rw [setActiveById_eq_of_ne _ _ hwid, hallfalse w hw]
      have : decide (w.id = latest.id) = false := by
        simpa using hwid
      rw [this, Bool.and_false]
  rw [Function.comp_def, countP_congrB hpt,
    countP_and_id l hnd latest hlm (keyP tid' vt'), if_pos hklat]

lemma countP_activeP_map_setActive_ne (l : List AudioVersion)
    (hnd : (l.map (fun w => w.id)).Nodup) (latest : AudioVersion) (hlm : latest ∈ l)
    (tid' : String) (vt' : VersionType) (hklat : keyP tid' vt' latest = false) :
    (l.map (setActiveById latest.id)).countP (activeP tid' vt')
      = l.countP (activeP tid' vt') := by
  rw [List.countP_map]
  have hpt : ∀ w ∈ l, activeP tid' vt' (setActiveById latest.id w)
      = activeP tid' vt' w := by
    intro w hw
    by_cases hwid : w.id = latest.id
    · have hwv : w = latest := mem_id_inj l hnd hw hlm hwid
      subst hwv
      rw [activeP_setActiveById_hit _ _ _ _ rfl, hklat]
      unfold activeP
      rw [hklat, Bool.false_and]
    · rw [setActiveById_eq_of_ne _ _ hwid]
  rw [Function.comp_def, countP_congrB hpt]

lemma inv_deleteOp (db : DB) (tid : String) (versionId : Nat) (h : Inv db) :
    Inv (deleteOp db tid versionId) := by
  obtain ⟨hbound, hnodup, hact⟩ := h
  cases hfind : db.rows.find? (fun v => decide (v.id = versionId)) with
  | none => rw [deleteOp_not_found db tid versionId hfind]; exact ⟨hbound, hnodup, hact⟩
  | some v =>
      have hvmem : v ∈ db.rows := List.mem_of_find?_eq_some hfind
      have hvid : v.id = versionId := by simpa using List.find?_some hfind
      rw [deleteOp_found db tid versionId v hfind]
      by_cases htr : v.trackId ≠ tid
      · rw [if_pos htr]; exact ⟨hbound, hnodup, hact⟩
      rw [if_neg htr]
      push_neg at htr
      by_cases hone : keyCount db.rows tid v.versionType = 1
      · rw [if_pos hone]; exact ⟨hbound, hnodup, hact⟩
      rw [if_neg hone]
      have hremnodup :
          ((db.rows.filter (fun w => !decide (w.id = versionId))).map
            (fun w => w.id)).Nodup :=
        List.Nodup.sublist (List.Sublist.map _ (List.filter_sublist _)) hnodup
      have hrembound : ∀ w ∈ db.rows.filter (fun w => !decide (w.id = versionId)),
          w.id < db.nextId :=
        fun w hw => hbound w (List.mem_of_mem_filter hw)
      have hsplitA : ∀ p : AudioVersion → Bool,
          db.rows.countP p
            = (db.rows.filter (fun w => !decide (w.id = versionId))).countP p
              + (if p v then 1 else 0) := by
        intro p
        have h1 : (db.rows.filter (fun w => !decide (w.id = versionId))).countP p
            = db.rows.countP (fun w => p w && !decide (w.id = versionId)) :=
          List.countP_filter p _ db.rows
        have h2 : db.rows.countP (fun w => p w && decide (w.id = versionId))
            = if p v then 1 else 0 := by
          have hcid := countP_and_id db.rows hnodup v hvmem p
          rw [hvid] at hcid
          exact hcid
        rw [countP_split db.rows p (fun w => decide (w.id = versionId)), h2, h1,
          Nat.add_comm]
      have hkv : keyP tid v.versionType v = true := (keyP_iff _ _ _).mpr ⟨htr, rfl⟩
      have hkeyrows_pos : 0 < keyCount db.rows tid v.versionType := by
        unfold keyCount
        rw [List.countP_pos_iff]
        exact ⟨v, hvmem, hkv⟩
      have hkeyrem_pos :
          0 < (db.rows.filter (fun w => !decide (w.id = versionId))).countP
            (keyP tid v.versionType) := by
        have hK := hsplitA (keyP tid v.versionType)
        rw [if_pos hkv] at hK
        unfold keyCount at hone hkeyrows_pos
        omega
      by_cases hva : v.isActive
      · rw [if_pos hva]
        cases hfl : findLatestVersion
            (db.rows.filter (fun w => !decide (w.id = versionId))) tid v.versionType with
        | none =>
            exact absurd hfl (findLatestVersion_ne_none _ _ _ (by omega))
        | some latest =>
            obtain ⟨hlm, hlk⟩ := findLatestVersion_some _ _ _ _ hfl
            obtain ⟨hltr, hlvt⟩ := (keyP_iff _ _ _).mp hlk
            refine ⟨?_, ?_, ?_⟩
            · intro w hw
              rcases List.mem_map.mp hw with ⟨u, hu, rfl⟩
              show (setActiveById latest.id u).id < db.nextId
              rw [id_setActiveById]
              exact hrembound u hu
            · have : (((db.rows.filter (fun w => !decide (w.id = versionId))).map
                  (setActiveById latest.id)).map (fun w => w.id))
                    = ((db.rows.filter (fun w => !decide (w.id = versionId))).map
                      (fun w => w.id)) := by
                rw [List.map_map]
                exact List.map_congr_left (fun a _ => id_setActiveById latest.id a)
              rw [this]
              exact hremnodup
            · show activeInvariant
                ((db.rows.filter (fun w => !decide (w.id = versionId))).map
                  (setActiveById latest.id))
              intro tid' vt'
              unfold activeCount keyCount
              rw [countP_keyP_map_setActive]
              by_cases hk : tid' = tid ∧ vt' = v.versionType
              · obtain ⟨rfl, rfl⟩ := hk
                have havv : activeP tid' v.versionType v = true := by
                  unfold activeP
                  rw [hkv, hva, Bool.and_true]
                have hA := hsplitA (activeP tid' v.versionType)
                rw [if_pos havv] at hA
                have hle := (hact tid' v.versionType).1
                rw [activeCount] at hle
                have hrem0 : (db.rows.filter
                    (fun w => !decide (w.id = versionId))).countP
                      (activeP tid' v.versionType) = 0 := by omega
                have hall : ∀ w ∈ db.rows.filter (fun w => !decide (w.id = versionId)),
                    activeP tid' v.versionType w = false := by
                  intro w hw
                  have := List.countP_eq_zero.mp hrem0 w hw
                  simpa using this
                rw [countP_activeP_map_setActive_hit _ hremnodup latest hlm _ _ hall hlk]
                exact ⟨le_refl 1, fun _ => rfl⟩
              · have hlkf : keyP tid' vt' latest = false :=
                  keyP_false_of_ne tid' vt' latest tid hltr v.versionType hlvt hk
                rw [countP_activeP_map_setActive_ne _ hremnodup latest hlm _ _ hlkf]
                have hkvf : keyP tid' vt' v = false :=
                  keyP_false_of_ne tid' vt' v tid htr v.versionType rfl hk
                have havf : activeP tid' vt' v = false := by
                  unfold activeP
                  rw [hkvf, Bool.false_and]
                have hA := hsplitA (activeP tid' vt')
                have hK := hsplitA (keyP tid' vt')
                rw [if_neg (by rw [havf]; exact Bool.false_ne_true)] at hA
                rw [if_neg (by rw [hkvf]; exact Bool.false_ne_true)] at hK
                have := hact tid' vt'
                unfold activeCount keyCount at this
                omega
      · rw [if_neg hva]
        refine ⟨hrembound, hremnodup, ?_⟩
        show activeInvariant (db.rows.filter (fun w => !decide (w.id = versionId)))
        intro tid' vt'
        unfold activeCount keyCount
        have havf : activeP tid' vt' v = false := by
          unfold activeP
          rw [Bool.not_eq_true] at hva
          rw [hva, Bool.and_false]
        have hA := hsplitA (activeP tid' vt')
        rw [if_neg (by rw [havf]; exact Bool.false_ne_true)] at hA
        by_cases hk : tid' = tid ∧ vt' = v.versionType
        · obtain ⟨rfl, rfl⟩ := hk
          have hK := hsplitA (keyP tid' v.versionType)
          rw [if_pos hkv] at hK
          have := hact tid' v.versionType
          unfold keyCount at hone hkeyrows_pos
          unfold activeCount keyCount at this
          constructor
          · omega
          · intro _
            omega
        · have hkvf : keyP tid' vt' v = false :=
            keyP_false_of_ne tid' vt' v tid htr v.versionType rfl hk
          have hK := hsplitA (keyP tid' vt')
          rw [if_neg (by rw [hkvf]; exact Bool.false_ne_true)] at hK
          have := hact tid' vt'
          unfold activeCount keyCount at this
          omega

lemma inv_applyOp (db : DB) (op : LifecycleOp) (h : Inv db) : Inv (applyOp db op) := by
  cases op with
  | upload tid vt => exact inv_uploadOp db tid vt h
  | activate tid versionId => exact inv_activateOp db tid versionId h
  | del tid versionId => exact inv_deleteOp db tid versionId h

lemma inv_emptyDB : Inv emptyDB := by
  refine ⟨fun v hv => absurd hv (List.not_mem_nil v), List.nodup_nil, ?_⟩
  intro tid vt
  exact ⟨Nat.zero_le 1, fun h => absurd h (by simp [keyCount, emptyDB])⟩

lemma inv_foldl (ops : List LifecycleOp) :
    ∀ db, Inv db → Inv (ops.foldl applyOp db) := by
  induction ops with
  | nil => exact fun db h => h
  | cons o t ih => exact fun db h => ih (applyOp db o) (inv_applyOp db o h)

/-- Claim C2: for every (trackId, versionType) key and every sequence of
upload / activate / delete operations applied sequentially from the empty
state, at most one AudioVersion of that key is active, and exactly one is
active whenever the key has at least one version. -/
theorem C2_exactly_one_active (ops : List LifecycleOp) (tid : String)
    (vt : VersionType) :
    activeCount (runOps ops).rows tid vt ≤ 1
      ∧ (0 < keyCount (runOps ops).rows tid vt
          → activeCount (runOps ops).rows tid vt = 1) :=
  (inv_foldl ops emptyDB inv_emptyDB).2.2 tid vt

/-- Witness for C2: two uploads followed by a delete of the first version. -/
theorem C2_witness :
    0 < keyCount (runOps [LifecycleOp.upload "t1" VersionType.STEREO,
        LifecycleOp.upload "t1" VersionType.STEREO,
        LifecycleOp.del "t1" 0]).rows "t1" VersionType.STEREO
    ∧ activeCount (runOps [LifecycleOp.upload "t1" VersionType.STEREO,
        LifecycleOp.upload "t1" VersionType.STEREO,
        LifecycleOp.del "t1" 0]).rows "t1" VersionType.STEREO = 1 :=
  ⟨by decide,
    (C2_exactly_one_active [LifecycleOp.upload "t1" VersionType.STEREO,
      LifecycleOp.upload "t1" VersionType.STEREO,
      LifecycleOp.del "t1" 0] "t1" VersionType.STEREO).2 (by decide)⟩

/-! ### Version numbering (C5) -/

lemma pickLatest_versionNumber (l : List AudioVersion) :
    ∀ acc, (match l.foldl pickLatest acc with
        | none => 0
        | some v => v.versionNumber)
      = l.foldl (fun m v => max m v.versionNumber)
          (match acc with | none => 0 | some v => v.versionNumber) := by
  induction l with
  | nil => intro acc; rfl
  | cons a t ih =>
      intro acc
      rw [List.foldl_cons, List.foldl_cons, ih (pickLatest acc a)]
      congr 1
      cases acc with
      | none => simp [pickLatest]
      | some b =>
          show (match (if b.versionNumber < a.versionNumber then some a else some b) with
              | none => 0
              | some v => v.versionNumber) = max b.versionNumber a.versionNumber
          by_cases hlt : b.versionNumber < a.versionNumber
          · rw [if_pos hlt]
            exact (max_eq_right (le_of_lt hlt)).symm
          · rw [if_neg hlt]
            exact (max_eq_left (le_of_not_lt hlt)).symm

lemma findLatestVersion_eq_max (rows : List AudioVersion) (tid : String)
    (vt : VersionType) :
    (match findLatestVersion rows tid vt with
      | none => 0
      | some v => v.versionNumber) = maxVersionNumber rows tid vt := by
  unfold findLatestVersion maxVersionNumber versionNumbersOf
  rw [pickLatest_versionNumber, List.foldl_map]

lemma versionNumbersOf_uploadOp (db : DB) (tid : String) (vt : VersionType) :
    versionNumbersOf (uploadOp db tid vt).rows tid vt
      = versionNumbersOf db.rows tid vt ++ [maxVersionNumber db.rows tid vt + 1] := by
  rw [(uploadOp_rows db tid vt).1]
  unfold versionNumbersOf
  rw [List.filter_append, List.map_append]
  congr 1
  · have hfm : (db.rows.map (deactivateKey tid vt)).filter (keyP tid vt)
        = (db.rows.filter (keyP tid vt)).map (deactivateKey tid vt) := by
      rw [List.filter_map]
      congr 1
      exact List.filter_congr (fun a _ => by
        show (keyP tid vt ∘ deactivateKey tid vt) a = keyP tid vt a
        exact keyP_deactivateKey tid vt tid vt a)
    rw [hfm, List.map_map]
    exact List.map_congr_left (fun a _ => by
      show (deactivateKey tid vt a).versionNumber = a.versionNumber
      exact num_deactivateKey tid vt a)
  · have hkp : keyP tid vt (⟨db.nextId, tid, vt,
        (match findLatestVersion db.rows tid vt with
         | none => 0
         | some v => v.versionNumber) + 1, true⟩ : AudioVersion) = true := by
      rw [keyP_iff]
      exact ⟨rfl, rfl⟩
    rw [List.filter_cons_of_pos hkp, List.filter_nil, List.map_cons, List.map_nil]
    rw [findLatestVersion_eq_max]

lemma foldl_max_range_succ (n : Nat) :
    ((List.range n).map (fun k => k + 1)).foldl max 0 = n := by
  induction n with
  | zero => rfl
  | succ m ih =>
      rw [List.range_succ, List.map_append, List.foldl_append, ih]
      show max m (m + 1) = m + 1
      exact max_eq_right (Nat.le_succ m)

lemma runOps_replicate_upload (tid : String) (vt : VersionType) (N : Nat) :
    versionNumbersOf (runOps (List.replicate N (LifecycleOp.upload tid vt))).rows tid vt
      = (List.range N).map (fun k => k + 1)
    ∧ maxVersionNumber (runOps (List.replicate N (LifecycleOp.upload tid vt))).rows tid vt
      = N := by
  induction N with
  | zero => exact ⟨rfl, rfl⟩
  | succ m ih =>
      have hrep : List.replicate (m + 1) (LifecycleOp.upload tid vt)
          = List.replicate m (LifecycleOp.upload tid vt) ++ [LifecycleOp.upload tid vt] :=
        List.replicate_succ' _ _
      have hrun : runOps (List.replicate (m + 1) (LifecycleOp.upload tid vt))
          = uploadOp (runOps (List.replicate m (LifecycleOp.upload tid vt))) tid vt := by
        unfold runOps
        rw [hrep, List.foldl_append]
        rfl
      constructor
      · rw [hrun, versionNumbersOf_uploadOp, ih.1, ih.2, List.range_succ,
          List.map_append]
        rfl
      · rw [hrun]
        unfold maxVersionNumber
        rw [versionNumbersOf_uploadOp, ih.1, ih.2, List.foldl_append,
          foldl_max_range_succ]
        show max m (m + 1) = m + 1
        exact max_eq_right (Nat.le_succ m)

/-- Claim C5: every upload appends a version numbered `max + 1` (so `1`
when the key has no versions), and N sequential uploads of a key starting
from the empty state yield versionNumbers exactly `1, 2, ..., N` — strictly
increasing, no duplicates, no gaps. -/
theorem C5_version_numbering :
    (∀ (db : DB) (tid : String) (vt : VersionType),
        versionNumbersOf (uploadOp db tid vt).rows tid vt
          = versionNumbersOf db.rows tid vt ++ [maxVersionNumber db.rows tid vt + 1])
    ∧ ∀ (N : Nat) (tid : String) (vt : VersionType),
        versionNumbersOf (runOps (List.replicate N (LifecycleOp.upload tid vt))).rows
            tid vt
          = (List.range N).map (fun k => k + 1) :=
  ⟨versionNumbersOf_uploadOp,
    fun N tid vt => (runOps_replicate_upload tid vt N).1⟩

/-- Claim C3: a satisfiable `Range: bytes=start-end` header (with
`0 ≤ start ≤ end ≤ fileSize - 1`, the end optional and defaulting to
`fileSize - 1`) yields a 206 with `Content-Range: bytes start-end/fileSize`,
`Content-Length = end - start + 1` and exactly the bytes `start..end` as
body; without a `Range` header the handler returns 200, the file size as
`Content-Length` and the whole file. -/
theorem C3_range_request_semantics (fileBytes : List Nat) (p sStr eStr : String)
    (s e : Int)
    (hs : jsParseInt sStr = some s) (he : jsParseInt eStr = some e)
    (hsd : '-' ∉ sStr.data) (hed : '-' ∉ eStr.data) (heNE : eStr.data ≠ [])
    (h0 : 0 ≤ s) (hse : s ≤ e) (hef : e < (fileBytes.length : Int)) :
    (handleGet fileBytes (some ("bytes=" ++ sStr ++ "-" ++ eStr)) p).status = 206
    ∧ (handleGet fileBytes (some ("bytes=" ++ sStr ++ "-" ++ eStr)) p).contentRange
        = some ("bytes " ++ toString s ++ "-" ++ toString e ++ "/"
            ++ toString (fileBytes.length : Int))
    ∧ (handleGet fileBytes (some ("bytes=" ++ sStr ++ "-" ++ eStr)) p).contentLength
        = some (e - s + 1)
    ∧ (handleGet fileBytes (some ("bytes=" ++ sStr ++ "-" ++ eStr)) p).body
        = (fileBytes.drop s.toNat).take (e + 1 - s).toNat
    ∧ (handleGet fileBytes (some ("bytes=" ++ sStr ++ "-")) p).status = 206
    ∧ (handleGet fileBytes (some ("bytes=" ++ sStr ++ "-")) p).contentLength
        = some ((fileBytes.length : Int) - s)
    ∧ (handleGet fileBytes (some ("bytes=" ++ sStr ++ "-")) p).body
        = fileBytes.drop s.toNat
    ∧ (handleGet fileBytes none p).status = 200
    ∧ (handleGet fileBytes none p).contentLength = some (fileBytes.length : Int)
    ∧ (handleGet fileBytes none p).body = fileBytes := by
  have h2 := handleGet_two_parts fileBytes p sStr eStr s e hs he hsd hed heNE
  have ho := handleGet_open_end fileBytes p sStr s hs hsd
  have hsl : s ≤ (fileBytes.length : Int) := le_trans hse (le_of_lt hef)
  have hbody2 : subarray fileBytes (some s) (some (e + 1))
      = (fileBytes.drop s.toNat).take (e + 1 - s).toNat := by
    rw [subarray_some fileBytes s (e + 1) h0 hsl (by omega), min_eq_left (by omega)]
  have hlen : ((fileBytes.length : Int) - 1 + 1) = (fileBytes.length : Int) := by ring
  have hbodyOpen : subarray fileBytes (some s)
      (some ((fileBytes.length : Int) - 1 + 1)) = fileBytes.drop s.toNat := by
    rw [hlen, subarray_some fileBytes s _ h0 hsl (Int.natCast_nonneg _), min_self]
    apply List.take_of_length_le
    simp only [List.length_drop]
    omega
  have hbodyNone : subarray fileBytes (some 0)
      (some ((fileBytes.length : Int) - 1 + 1)) = fileBytes := by
    rw [hlen, subarray_some fileBytes 0 _ le_rfl (Int.natCast_nonneg _)
      (Int.natCast_nonneg _), min_self]
    simp
  refine ⟨by simp only [h2], by simp only [h2], by simp only [h2],
    by simp only [h2]; exact hbody2,
    by simp only [ho], ?_, by simp only [ho]; exact hbodyOpen,
    rfl, rfl, ?_⟩
  · simp only [ho]
    congr 1
    ring
  · show subarray fileBytes (some 0)
      (jsAdd (some ((fileBytes.length : Int) - 1)) 1) = fileBytes
    simpa [jsAdd] using hbodyNone

/-- Witness for C3 at a concrete 4-byte file and `Range: bytes=1-2`. -/
theorem C3_witness :
    jsParseInt "1" = some 1
    ∧ (handleGet [10, 20, 30, 40] (some ("bytes=" ++ "1" ++ "-" ++ "2")) "f.wav").status
        = 206
    ∧ (handleGet [10, 20, 30, 40] (some ("bytes=" ++ "1" ++ "-" ++ "2")) "f.wav").body
        = ([10, 20, 30, 40].drop (1 : Int).toNat).take ((2 : Int) + 1 - 1).toNat := by
  have h := C3_range_request_semantics [10, 20, 30, 40] "f.wav" "1" "2" 1 2
    (by decide) (by decide) (by decide) (by decide) (by decide)
    (by decide) (by decide) (by decide)
  exact ⟨by decide, h.1, h.2.2.2.1⟩

/-- Claim C10: any `Range` header whatsoever produces a 206 (never a 416),
and the raw parsed bounds are used unclamped: when `end` exceeds
`fileSize - 1`, `Content-Length` still declares `end - start + 1` while the
returned body is the shorter slice that actually exists. -/
theorem C10_range_never_validated :
    (∀ (fileBytes : List Nat) (r p : String),
        (handleGet fileBytes (some r) p).status = 206)
    ∧ ∀ (fileBytes : List Nat) (p sStr eStr : String) (s e : Int),
        jsParseInt sStr = some s → jsParseInt eStr = some e →
        '-' ∉ sStr.data → '-' ∉ eStr.data → eStr.data ≠ [] →
        0 ≤ s → s ≤ (fileBytes.length : Int) → (fileBytes.length : Int) ≤ e →
        (handleGet fileBytes (some ("bytes=" ++ sStr ++ "-" ++ eStr)) p).contentLength
            = some (e - s + 1)
        ∧ (((handleGet fileBytes (some ("bytes=" ++ sStr ++ "-" ++ eStr)) p).body.length : Int)
            = (fileBytes.length : Int) - s)
        ∧ (((handleGet fileBytes (some ("bytes=" ++ sStr ++ "-" ++ eStr)) p).body.length : Int)
            < e - s + 1) := by
  constructor
  · intro fileBytes r p
    rfl
  · intro fileBytes p sStr eStr s e hs he hsd hed heNE h0 hsl hle
    have h2 := handleGet_two_parts fileBytes p sStr eStr s e hs he hsd hed heNE
    have hb : (handleGet fileBytes (some ("bytes=" ++ sStr ++ "-" ++ eStr)) p).body
        = (fileBytes.drop s.toNat).take ((fileBytes.length : Int) - s).toNat := by
      simp only [h2]
      rw [subarray_some fileBytes s (e + 1) h0 hsl (by omega), min_eq_right (by omega)]
    refine ⟨by simp only [h2], ?_, ?_⟩
    · rw [hb]
      simp only [List.length_take, List.length_drop]
      have hmin : ((fileBytes.length : Int) - s).toNat
          = fileBytes.length - s.toNat := by omega
      rw [hmin, min_self]
      omega
    · rw [hb]
      simp only [List.length_take, List.length_drop]
      have hmin : ((fileBytes.length : Int) - s).toNat
          = fileBytes.length - s.toNat := by omega
      rw [hmin, min_self]
      omega

/-- Witness for C10 at a 3-byte file and the unsatisfiable `bytes=0-9`. -/
theorem C10_witness :
    jsParseInt "9" = some 9
    ∧ (handleGet [5, 6, 7] (some ("bytes=" ++ "0" ++ "-" ++ "9")) "a.mp3").contentLength
        = some (9 - 0 + 1)
    ∧ (((handleGet [5, 6, 7] (some ("bytes=" ++ "0" ++ "-" ++ "9")) "a.mp3").body.length : Int)
        < 9 - 0 + 1) := by
  have h := C10_range_never_validated.2 [5, 6, 7] "a.mp3" "0" "9" 0 9
    (by decide) (by decide) (by decide) (by decide) (by decide)
    (by decide) (by decide) (by decide)
  exact ⟨by decide, h.1, h.2.2⟩

lemma fsLookup_write_self (fs : FS) (p : String) (b : List Nat) :
    fsLookup (fsWrite fs p b) p = some b := by
  unfold fsLookup fsWrite
  rw [List.find?_cons_of_pos _ (by simp)]

lemma fsRename_write_src (fs : FS) (p : String) (b : List Nat) (q : String) :
    fsRename (fsWrite fs p b) p q
      = fsWrite ((fsWrite fs p b).filter (fun e => !decide (e.1 = p))) q b := by
  unfold fsRename
  rw [fsLookup_write_self]

/-- Claim C6: an ATMOS upload stores exactly the uploaded bytes (the file is
only written to a temp path and renamed, never normalized), and the created
record carries `isNormalized = false` and `lufsLevel = null`. -/
theorem C6_atmos_upload_unaltered (fs0 : FS) (buffer : List Nat)
    (tempPath filePath versionedFilePath : String) (normLufs : Option ℚ) :
    fsLookup (atmosUploadFlow fs0 buffer tempPath filePath versionedFilePath).fs
        versionedFilePath = some buffer
    ∧ (atmosUploadFlow fs0 buffer tempPath filePath versionedFilePath).fileSize
        = buffer.length
    ∧ (atmosUploadFlow fs0 buffer tempPath filePath versionedFilePath).isNormalized
        = false
    ∧ (atmosUploadFlow fs0 buffer tempPath filePath versionedFilePath).lufsLevel
        = none
    ∧ uploadRecordFields "ATMOS" normLufs = (false, none) := by
  refine ⟨?_, rfl, rfl, rfl, rfl⟩
  show fsLookup (fsRename (fsRename (fsWrite fs0 tempPath buffer) tempPath filePath)
      filePath versionedFilePath) versionedFilePath = some buffer
  rw [fsRename_write_src, fsRename_write_src]
  exact fsLookup_write_self _ _ _

/-- Claim C4 concerns the code's temp-write-then-atomic-move discipline; the
code has none: the normalization ffmpeg invocation's destination argument is
the final `outputPath` itself, so a failing run (here: the external process
exits non-zero after emitting the partial byte `9`) reports
`success = false` while leaving the partial file at the final output path,
which previously did not exist. -/
theorem C4_failed_normalization_leaves_partial_output :
    (normalizeAudioFileModel ([("/in.wav", [1, 2, 3])] : FS) "/in.wav" "/out.wav"
        "STEREO_MASTER" true (FfmpegOutcome.fail (some [9]))).2 = false
    ∧ fsLookup (normalizeAudioFileModel ([("/in.wav", [1, 2, 3])] : FS) "/in.wav"
        "/out.wav" "STEREO_MASTER" true (FfmpegOutcome.fail (some [9]))).1 "/out.wav"
        = some [9]
    ∧ fsLookup ([("/in.wav", [1, 2, 3])] : FS) "/out.wav" = none
    ∧ (ffmpegArgs "/in.wav" "/out.wav" ⟨-16, -1, true⟩).getLastD "" = "/out.wav"
    ∧ NORMALIZATION_TARGETS "STEREO_MASTER" = some ⟨-16, -1, true⟩ := by
  refine ⟨by decide, by decide, by decide, rfl, by decide⟩

/-- Claim C7 is refuted by the loudness pass: with the loudness process
exiting non-zero (code 1) and an output containing none of the required
labelled fields, the analysis still resolves — fabricating `0` for every
loudness value — instead of failing. -/
theorem C7_counterexample_missing_fields_fabricated :
    analyzeLoudnessModel 1 "" = ⟨0, 0, 0, 0⟩
    ∧ (analyzeAudioFileModel 0 (some probeC7) 1 "").toOption
        = some ⟨1, 48000, 24, 2, "pcm_s24le", 0, 0, 0, 0⟩ :=
  ⟨by decide, by decide⟩

lemma analyzeLoudnessModel_eq (le : Int) (s : String) :
    analyzeLoudnessModel le s
      = { originalLufs := ((splitOnChar (Char.ofNat 10) s.data).foldl
            loudnessLineStep ⟨0, 0, 0, 0⟩).integratedLoudness
          peakLevel := ((splitOnChar (Char.ofNat 10) s.data).foldl
            loudnessLineStep ⟨0, 0, 0, 0⟩).maxMomentary
          truePeak := ((splitOnChar (Char.ofNat 10) s.data).foldl
            loudnessLineStep ⟨0, 0, 0, 0⟩).truePeak
          dynamicRange := ((splitOnChar (Char.ofNat 10) s.data).foldl
            loudnessLineStep ⟨0, 0, 0, 0⟩).loudnessRange } := rfl

lemma foldl_loudnessLineStep_id (l : List (List Char))
    (h : ∀ line ∈ l, ∀ acc : LoudnessAcc, loudnessLineStep acc line = acc) :
    ∀ init, l.foldl loudnessLineStep init = init := by
  induction l with
  | nil => intro _; rfl
  | cons a t ih =>
      intro init
      rw [List.foldl_cons, h a (List.mem_cons_self a t) init]
      exact ih (fun line hl => h line (List.mem_cons_of_mem a hl)) init

/-- Claim C7 amended: `analyzeAudioFile` rejects exactly when ffprobe exits
non-zero, its output is unparsable, or no audio stream is present; the
ebur128 loudness invocation never causes a failure — its exit code is
ignored, and when the labelled loudness fields are absent from its output
the measurements silently default to `0`. -/
theorem C7_amended_analysis_failure_conditions (pe le : Int)
    (probe : Option ProbeData) (stderrText : String)
    (hNoLabels : ∀ line ∈ splitOnChar (Char.ofNat 10) stderrText.data,
        ∀ lab ∈ loudnessLabels, containsSub lab line = false) :
    analyzeLoudnessModel le stderrText = ⟨0, 0, 0, 0⟩
    ∧ ((analyzeAudioFileModel pe probe le stderrText).toOption ≠ none
        ↔ (pe = 0 ∧ ∃ pd, probe = some pd
            ∧ pd.streams.find? (fun s => decide (s.codecType = "audio")) ≠ none)) := by
  constructor
  · have hstep : ∀ line ∈ splitOnChar (Char.ofNat 10) stderrText.data,
        ∀ acc : LoudnessAcc, loudnessLineStep acc line = acc := by
      intro line hline acc
      have h1 := hNoLabels line hline "Integrated loudness:".data (by simp [loudnessLabels])
      have h2 := hNoLabels line hline "True peak:".data (by simp [loudnessLabels])
      have h3 := hNoLabels line hline "Loudness range:".data (by simp [loudnessLabels])
      have h4 := hNoLabels line hline "Momentary max:".data (by simp [loudnessLabels])
      simp [loudnessLineStep, h1, h2, h3, h4]
    rw [analyzeLoudnessModel_eq, foldl_loudnessLineStep_id _ hstep]
  · unfold analyzeAudioFileModel
    by_cases hpe : pe = 0
    · rw [if_neg (by simp [hpe])]
      cases probe with
      | none =>
          constructor
          · intro h
            exact absurd rfl h
          · rintro ⟨-, pd, hpd, -⟩
            exact Option.noConfusion hpd
      | some pd =>
          dsimp only
          cases hfs : pd.streams.find? (fun s => decide (s.codecType = "audio")) with
          | none =>
              constructor
              · intro h
                exact absurd rfl h
              · rintro ⟨-, pd', hpd', hfind⟩
                cases Option.some.inj hpd'
                exact absurd hfs hfind
          | some st =>
              constructor
              · intro _
                exact ⟨hpe, pd, rfl, by rw [hfs]; exact Option.some_ne_none st⟩
              · intro _
                exact fun hh => Option.noConfusion hh
    · rw [if_pos hpe]
      constructor
      · intro h
        exact absurd rfl h
      · rintro ⟨hpe0, -⟩
        exact absurd hpe0 hpe

/-- Witness for the amended C7 at exit code 1 and empty diagnostics. -/
theorem C7_amended_witness :
    (∀ line ∈ splitOnChar (Char.ofNat 10) ("" : String).data,
        ∀ lab ∈ loudnessLabels, containsSub lab line = false)
    ∧ analyzeLoudnessModel 1 "" = ⟨0, 0, 0, 0⟩ :=
  ⟨by decide, (C7_amended_analysis_failure_conditions 0 1 (some probeC7) ""
    (by decide)).1⟩

/-- Claim C8 is refuted: a BINAURAL upload fails the route's versionType
allow-list check and is answered with 400 `Invalid version type`, even
though the normalization table defines a −16 LUFS / −1 dBTP target for
BINAURAL. -/
theorem C8_counterexample_binaural_rejected :
    versionTypeCheckPasses "BINAURAL" = false
    ∧ NORMALIZATION_TARGETS "BINAURAL" = some ⟨-16, -1, true⟩ :=
  ⟨by decide, by decide⟩

/-- Claim C8 amended: the upload route accepts exactly the versionTypes
STEREO, ATMOS and REFERENCE (matching the Prisma enum); BINAURAL requests
are rejected with 400 `Invalid version type`, although
`NORMALIZATION_TARGETS` carries an (unreachable) BINAURAL target of
−16.0 LUFS with a −1.0 dBTP ceiling, the same as STEREO. -/
theorem C8_amended_versiontype_allowlist :
    (∀ vt : String, versionTypeCheckPasses vt = true
        ↔ (vt = "STEREO" ∨ vt = "ATMOS" ∨ vt = "REFERENCE"))
    ∧ versionTypeCheckPasses "BINAURAL" = false
    ∧ NORMALIZATION_TARGETS "BINAURAL"
        = NORMALIZATION_TARGETS "STEREO_MASTER" := by
  refine ⟨?_, by decide, by decide⟩
  intro vt
  unfold versionTypeCheckPasses validVersionTypes
  simp [List.contains]

lemma foldl_add_sq (l : List ℚ) :
    ∀ a : ℚ, l.foldl (fun sum s => sum + s * s) a = a + (l.map (fun s => s * s)).sum := by
  induction l with
  | nil => intro a; simp
  | cons x t ih =>
      intro a
      rw [List.foldl_cons, ih, List.map_cons, List.sum_cons]
      ring

lemma sumSquares_eq_sum_map (l : List ℚ) :
    sumSquares l = (l.map (fun s => s * s)).sum := by
  unfold sumSquares
  rw [foldl_add_sq]
  ring

/-- Claim C9 is refuted at `samples = [1]`, `W = 2`: `⌊1 / 2⌋ = 0` makes
every bucket empty, so each slot computes the JS division `0 / 0`, which is
`NaN` (modelled as `none`) — the result is `[NaN, NaN]`, not a sequence of
two non-negative floats each equal to a bucket's RMS. -/
theorem C9_counterexample_nan_buckets :
    generateWaveformData [1] 2 = [none, none]
    ∧ none ∈ generateWaveformData [1] 2 := by
  have h : generateWaveformData [1] 2 = [none, none] := rfl
  exact ⟨h, h ▸ List.mem_cons_self none [none]⟩

/-- Claim C9 amended: for `W > 0` the downsampler returns exactly `W`
values; when `W ≤ samples.length` (so every bucket holds `⌊n / W⌋ ≥ 1`
samples) the `i`-th value is the non-negative RMS amplitude of the `i`-th
contiguous bucket of `⌊n / W⌋` samples (trailing remainder dropped); but
when `samples.length < W` every bucket is empty and all `W` outputs are
`NaN` (the JS `0 / 0`), not non-negative floats. -/
theorem C9_downsample_rms (samples : List ℚ) (W : Nat) (hW : 0 < W) :
    (generateWaveformData samples W).length = W
    ∧ (W ≤ samples.length → ∀ i, i < W →
        (generateWaveformData samples W).getD i none
          = some (specRMS (specBucket samples W i)))
    ∧ (∀ l : List ℚ, 0 ≤ specRMS l)
    ∧ (samples.length < W → ∀ i, i < W →
        (generateWaveformData samples W).getD i none = none) := by
  have hlen : ∀ i, i < W → i < (generateWaveformData samples W).length := by
    intro i hi
    simp [generateWaveformData, hi]
  refine ⟨by simp [generateWaveformData], ?_, fun l => Real.sqrt_nonneg _, ?_⟩
  · intro hnW i hi
    rw [List.getD_eq_getElem _ _ (hlen i hi)]
    simp only [generateWaveformData, List.getElem_map, List.getElem_range]
    have hspp1 : 1 ≤ samples.length / W := (Nat.le_div_iff_mul_le hW).mpr (by omega)
    have hbound : (i + 1) * (samples.length / W) ≤ samples.length := by
      calc (i + 1) * (samples.length / W) ≤ W * (samples.length / W) :=
            Nat.mul_le_mul_right _ hi
        _ ≤ samples.length := by
            rw [Nat.mul_comm]
            exact Nat.div_mul_le_self samples.length W
    rw [Nat.succ_mul] at hbound
    have hslice : ((samples.drop (i * (samples.length / W))).take
        (samples.length / W)).length = samples.length / W := by
      rw [List.length_take, List.length_drop]
      omega
    rw [if_neg (by omega)]
    unfold specRMS specBucket
    rw [sumSquares_eq_sum_map]
  · intro hlt i hi
    rw [List.getD_eq_getElem _ _ (hlen i hi)]
    simp only [generateWaveformData, List.getElem_map, List.getElem_range]
    rw [Nat.div_eq_of_lt hlt]
    rw [if_pos (by simp)]

/-- Witness for the amended C9 at three samples and width 2. -/
theorem C9_witness :
    0 < 2 ∧ (2 : Nat) ≤ ([1, 2, 3] : List ℚ).length
    ∧ (generateWaveformData [1, 2, 3] 2).length = 2
    ∧ (generateWaveformData [1, 2, 3] 2).getD 0 none
        = some (specRMS (specBucket [1, 2, 3] 2 0)) := by
  have h := C9_downsample_rms [1, 2, 3] 2 (by decide)
  exact ⟨by decide, by decide, h.1, h.2.1 (by decide) 0 (by decide)⟩

/-- Claim C1: the streaming route is claimed to reject any request whose
decoded path escapes the storage root.  The code performs no such check:
for the request path `/api/audio-stream/..%2F..%2F..%2F..%2F..%2F..%2Fetc%2Fpasswd`
the handler derives (rather than rejecting) an absolute file path, and that
path, `/etc/passwd`, lies outside the configured storage root. -/
theorem C1_traversal_escapes_root :
    deriveFilePath "/api/audio-stream/..%2F..%2F..%2F..%2F..%2F..%2Fetc%2Fpasswd"
      = some "/etc/passwd"
    ∧ "/etc/passwd" ≠ AUDIO_FILES_BASE_DIR
    ∧ startsWithL (AUDIO_FILES_BASE_DIR ++ "/").data ("/etc/passwd").data = false := by
  refine ⟨?_, by decide, by decide⟩
  decide

end JWX
